import Mathlib

/-
  Verification of the CSolver orchestration contract of the SU2 solver
  hierarchy, whose interface is src/SU2_CFD/include/solver_structure.hpp.
  The header under src/ only declares the member functions; the bodies
  live in solver_structure.cpp / solution_direct.cpp and the inline file,
  which are not part of the provided sources.  Every operation needed
  below is therefore modelled from the specification; each such
  definition records in its doc comment which missing member it stands
  for.  The su2double scalar is modelled as the rational numbers, so the
  algebra of residual accumulation is exact.
-/

namespace SU2

/-- The working scalar type of the solver (su2double), modelled exactly. -/
abbrev su2double := ℚ

/-- An interior mesh edge joining mesh point i and mesh point j. -/
structure MeshEdge where
  i : Nat
  j : Nat
deriving DecidableEq

/-- Add the per-variable vector w into the residual accumulator slot of
point p (the scatter-add of one edge contribution into one point). -/
def addAt (Res : Nat → Nat → su2double) (p : Nat) (w : Nat → su2double) :
    Nat → Nat → su2double :=
  fun q v => if q = p then Res q v + w v else Res q v

/-- Modelled from the spec: the bodies of CEulerSolver::Centered_Residual and
CEulerSolver::Upwind_Residual (declared at header lines 3673 and 3684, defined
in the missing solution_direct.cpp) process one interior edge by computing a
face flux and scatter-adding plus flux into the residual slot of point i and
minus flux into the residual slot of point j. The flux scheme itself is an
external numerics collaborator, so it enters as a parameter. -/
def scatterEdge (Res : Nat → Nat → su2double) (e : MeshEdge)
    (flux : Nat → su2double) : Nat → Nat → su2double :=
  addAt (addAt Res e.i flux) e.j (fun v => -(flux v))

/-- Modelled from the spec: the interior-edge loop shared by Centered_Residual
and Upwind_Residual — iterate over all interior edges, accumulating each edge
flux antisymmetrically into the global residual accumulator. -/
def interiorResidual (flux : MeshEdge → Nat → su2double) (edges : List MeshEdge)
    (Res : Nat → Nat → su2double) : Nat → Nat → su2double :=
  edges.foldl (fun R e => scatterEdge R e (flux e)) Res

/-- The all-zero global residual accumulator, the state of the accumulator at
the start of the interior-edge loops. -/
def zeroRes : Nat → Nat → su2double := fun _ _ => 0

lemma sum_addAt (Res : Nat → Nat → su2double) (p : Nat) (w : Nat → su2double)
    (n v : Nat) (hp : p < n) :
    ∑ q ∈ Finset.range n, addAt Res p w q v
      = (∑ q ∈ Finset.range n, Res q v) + w v := by
  unfold addAt
  have h1 : ∀ q, (if q = p then Res q v + w v else Res q v)
      = Res q v + (if q = p then w v else 0) := by
    intro q; by_cases h : q = p <;> simp [h]
  rw [Finset.sum_congr rfl (fun q _ => h1 q), Finset.sum_add_distrib,
    Finset.sum_ite_eq' (Finset.range n) p (fun _ => w v)]
  simp [Finset.mem_range.mpr hp]

lemma sum_scatterEdge (Res : Nat → Nat → su2double) (e : MeshEdge)
    (f : Nat → su2double) (n v : Nat) (hi : e.i < n) (hj : e.j < n) :
    ∑ q ∈ Finset.range n, scatterEdge Res e f q v
      = ∑ q ∈ Finset.range n, Res q v := by
  unfold scatterEdge
  rw [sum_addAt _ _ _ _ _ hj, sum_addAt _ _ _ _ _ hi]
  ring

lemma sum_interiorResidual (flux : MeshEdge → Nat → su2double)
    (edges : List MeshEdge) (Res : Nat → Nat → su2double) (n v : Nat)
    (hE : ∀ e ∈ edges, e.i < n ∧ e.j < n) :
    ∑ q ∈ Finset.range n, interiorResidual flux edges Res q v
      = ∑ q ∈ Finset.range n, Res q v := by
  induction edges generalizing Res with
  | nil => rfl
  | cons e es ih =>
      have h := hE e (List.mem_cons_self e es)
      have hrest : ∀ a ∈ es, a.i < n ∧ a.j < n :=
        fun a ha => hE a (List.mem_cons_of_mem e ha)
      simp only [interiorResidual, List.foldl_cons] at ih ⊢
      rw [ih (scatterEdge Res e (flux e)) hrest,
        sum_scatterEdge _ _ _ _ _ h.1 h.2]

/-- Claim C1: for every interior edge processed by Centered_Residual or
Upwind_Residual, the edge flux is added with a plus sign into the residual
slot of point i and with a minus sign into the residual slot of point j;
consequently, on a closed mesh (every edge endpoint among the nPoint mesh
points, no flux escaping through a boundary), the sum over all points of
all interior-edge flux contributions is exactly zero, for every flux
scheme, hence for both antisymmetric residual assemblies. -/
theorem interior_edge_assembly_conservation
    (flux : MeshEdge → Nat → su2double) (edges : List MeshEdge) (nPoint : Nat)
    (hE : ∀ e ∈ edges, e.i < nPoint ∧ e.j < nPoint) :
    (∀ (Res : Nat → Nat → su2double) (e : MeshEdge) (f : Nat → su2double)
        (v : Nat), e.i ≠ e.j →
        scatterEdge Res e f e.i v = Res e.i v + f v ∧
        scatterEdge Res e f e.j v = Res e.j v - f v) ∧
    (∀ v : Nat,
        ∑ p ∈ Finset.range nPoint, interiorResidual flux edges zeroRes p v
          = 0) := by
  constructor
  · intro Res e f v hne
    constructor
    · simp [scatterEdge, addAt, hne]
    · simp [scatterEdge, addAt, Ne.symm hne, sub_eq_add_neg]
  · intro v
    rw [sum_interiorResidual flux edges zeroRes nPoint v hE]
    simp [zeroRes]

/-- Witness for claim C1 at a concrete two-point mesh with one interior edge
and a concrete flux. -/
theorem interior_edge_assembly_conservation_witness :
    (∀ e ∈ [MeshEdge.mk 0 1], e.i < 2 ∧ e.j < 2) ∧
    ∑ p ∈ Finset.range 2,
        interiorResidual (fun _ v => (v : su2double) + 1)
          [MeshEdge.mk 0 1] zeroRes p 0 = 0 :=
  ⟨by decide,
    (interior_edge_assembly_conservation (fun _ v => (v : su2double) + 1)
      [MeshEdge.mk 0 1] 2 (by decide)).2 0⟩

/-- Modelled from the spec: the per-variable convergence-monitor state of
CSolver (the fields Residual_RMS, Residual_Max, Point_Max, Point_Max_Coord
of the header), written by SetRes_RMS / AddRes_RMS / SetRes_Max / AddRes_Max
and read by GetRes_RMS / GetRes_Max / GetPoint_Max / GetPoint_Max_Coord
(declared at header lines 313 to 380; the bodies are in the missing inline
file). -/
structure ConvMonitor where
  Residual_RMS : Nat → su2double
  Residual_Max : Nat → su2double
  Point_Max : Nat → Nat
  Point_Max_Coord : Nat → List su2double

/-- Modelled from the spec: SetRes_RMS stores the given residual value in the
slot of the given variable. -/
def SetRes_RMS (m : ConvMonitor) (v : Nat) (r : su2double) : ConvMonitor :=
  { m with Residual_RMS := Function.update m.Residual_RMS v r }

/-- Modelled from the spec: AddRes_RMS adds the given residual value into the
RMS accumulator slot of the given variable (sum of squares, square-rooted
once at epoch end by SetResidual_RMS). -/
def AddRes_RMS (m : ConvMonitor) (v : Nat) (r : su2double) : ConvMonitor :=
  { m with Residual_RMS := Function.update m.Residual_RMS v (m.Residual_RMS v + r) }

/-- Modelled from the spec: GetRes_RMS reads the RMS accumulator slot of the
given variable. -/
def GetRes_RMS (m : ConvMonitor) (v : Nat) : su2double := m.Residual_RMS v

/-- Modelled from the spec: SetRes_Max stores the given residual magnitude
and point index in the Max slots of the given variable (used with value 0 and
point 0 to reset the accumulator at the start of the pipeline). -/
def SetRes_Max (m : ConvMonitor) (v : Nat) (r : su2double) (p : Nat) :
    ConvMonitor :=
  { m with Residual_Max := Function.update m.Residual_Max v r,
           Point_Max := Function.update m.Point_Max v p }

/-- Modelled from the spec: AddRes_Max tracks the single maximum-magnitude
residual together with its point location — when the new magnitude exceeds
the stored one, the stored magnitude, point index and point coordinates are
replaced together by the arguments of this one call. -/
def AddRes_Max (m : ConvMonitor) (v : Nat) (r : su2double) (p : Nat)
    (c : List su2double) : ConvMonitor :=
  if m.Residual_Max v < r then
    { m with Residual_Max := Function.update m.Residual_Max v r,
             Point_Max := Function.update m.Point_Max v p,
             Point_Max_Coord := Function.update m.Point_Max_Coord v c }
  else m

/-- Modelled from the spec: GetRes_Max reads the stored maximal residual
magnitude of the given variable. -/
def GetRes_Max (m : ConvMonitor) (v : Nat) : su2double := m.Residual_Max v

/-- Modelled from the spec: GetPoint_Max reads the stored point index of the
maximal residual of the given variable. -/
def GetPoint_Max (m : ConvMonitor) (v : Nat) : Nat := m.Point_Max v

/-- Modelled from the spec: GetPoint_Max_Coord reads the stored coordinates
of the point of the maximal residual of the given variable. -/
def GetPoint_Max_Coord (m : ConvMonitor) (v : Nat) : List su2double :=
  m.Point_Max_Coord v

/-- One AddRes_Max call for a fixed variable: the residual magnitude, the
point index and the point coordinates passed in that call. -/
structure MaxEvent where
  r : su2double
  p : Nat
  c : List su2double

/-- A sequence of AddRes_Max calls for one fixed variable. -/
def runAddResMax (m : ConvMonitor) (v : Nat) (events : List MaxEvent) :
    ConvMonitor :=
  events.foldl (fun s ev => AddRes_Max s v ev.r ev.p ev.c) m

lemma AddRes_Max_rm (m : ConvMonitor) (w : Nat) (r : su2double) (p : Nat)
    (c : List su2double) (v : Nat) :
    (AddRes_Max m w r p c).Residual_Max v
      = if v = w then max (m.Residual_Max v) r else m.Residual_Max v := by
  unfold AddRes_Max
  split
  · rename_i h
    by_cases hv : v = w
    · subst hv; simp [max_eq_right (le_of_lt h)]
    · simp [Function.update_noteq hv, hv]
  · rename_i h
    by_cases hv : v = w
    · subst hv; simp [max_eq_left (not_lt.mp h)]
    · simp [hv]

lemma runAddResMax_spec (m : ConvMonitor) (v : Nat) (events : List MaxEvent) :
    (runAddResMax m v events).Residual_Max v
        = (events.map MaxEvent.r).foldl max (m.Residual_Max v) ∧
    (((runAddResMax m v events).Residual_Max v = m.Residual_Max v ∧
      (runAddResMax m v events).Point_Max v = m.Point_Max v ∧
      (runAddResMax m v events).Point_Max_Coord v = m.Point_Max_Coord v) ∨
     ∃ ev ∈ events,
        ev.r = (runAddResMax m v events).Residual_Max v ∧
        (runAddResMax m v events).Point_Max v = ev.p ∧
        (runAddResMax m v events).Point_Max_Coord v = ev.c) := by
  induction events generalizing m with
  | nil => exact ⟨rfl, Or.inl ⟨rfl, rfl, rfl⟩⟩
  | cons ev es ih =>
      simp only [runAddResMax, List.foldl_cons, List.map_cons] at ih ⊢
      obtain ⟨ih1, ih2⟩ := ih (AddRes_Max m v ev.r ev.p ev.c)
      have hrm : (AddRes_Max m v ev.r ev.p ev.c).Residual_Max v
          = max (m.Residual_Max v) ev.r := by
        rw [AddRes_Max_rm]; simp
      constructor
      · rw [ih1, hrm]
      · by_cases hlt : m.Residual_Max v < ev.r
        · have hfields : (AddRes_Max m v ev.r ev.p ev.c).Residual_Max v = ev.r ∧
              (AddRes_Max m v ev.r ev.p ev.c).Point_Max v = ev.p ∧
              (AddRes_Max m v ev.r ev.p ev.c).Point_Max_Coord v = ev.c := by
            unfold AddRes_Max
            rw [if_pos hlt]
            exact ⟨Function.update_same v ev.r m.Residual_Max,
              Function.update_same v ev.p m.Point_Max,
              Function.update_same v ev.c m.Point_Max_Coord⟩
          rcases ih2 with ⟨ha, hb, hc⟩ | ⟨ev2, hmem, h1, h2, h3⟩
          · exact Or.inr ⟨ev, List.mem_cons_self ev es,
              by rw [ha, hfields.1], by rw [hb, hfields.2.1],
              by rw [hc, hfields.2.2]⟩
          · exact Or.inr ⟨ev2, List.mem_cons_of_mem ev hmem, h1, h2, h3⟩
        · have hsame : AddRes_Max m v ev.r ev.p ev.c = m := by
            unfold AddRes_Max; rw [if_neg hlt]
          rw [hsame] at ih2 ⊢
          rcases ih2 with h | ⟨ev2, hmem, h1, h2, h3⟩
          · exact Or.inl h
          · exact Or.inr ⟨ev2, List.mem_cons_of_mem ev hmem, h1, h2, h3⟩

/-- Claim C10: after a SetRes_Max reset followed by any sequence of
AddRes_Max calls whose largest passed magnitude is positive, the three
accessors are mutually consistent — GetRes_Max returns the largest magnitude
passed in the sequence, and GetPoint_Max and GetPoint_Max_Coord return the
point index and coordinates passed in the same call that achieved that
maximum, never values mixed from different calls. -/
theorem addResMax_accessors_consistent
    (m : ConvMonitor) (v : Nat) (events : List MaxEvent)
    (hpos : 0 < (events.map MaxEvent.r).foldl max 0) :
    GetRes_Max (runAddResMax (SetRes_Max m v 0 0) v events) v
        = (events.map MaxEvent.r).foldl max 0 ∧
    ∃ ev ∈ events,
      ev.r = (events.map MaxEvent.r).foldl max 0 ∧
      GetPoint_Max (runAddResMax (SetRes_Max m v 0 0) v events) v = ev.p ∧
      GetPoint_Max_Coord (runAddResMax (SetRes_Max m v 0 0) v events) v
        = ev.c := by
  have h0 : (SetRes_Max m v 0 0).Residual_Max v = 0 := by
    simp [SetRes_Max]
  obtain ⟨h1, h2⟩ := runAddResMax_spec (SetRes_Max m v 0 0) v events
  rw [h0] at h1
  refine ⟨h1, ?_⟩
  rcases h2 with ⟨ha, _, _⟩ | ⟨ev, hmem, hr, hp, hc⟩
  · rw [ha, h0] at h1
    exact absurd h1.symm (ne_of_gt hpos)
  · exact ⟨ev, hmem, by rw [hr, h1], hp, hc⟩

/-- A concrete convergence monitor used by the concrete witnesses. -/
def monEx : ConvMonitor :=
  ⟨fun _ => 5, fun _ => 7, fun _ => 3, fun _ => [1]⟩

/-- Witness for claim C10 at one concrete AddRes_Max sequence. -/
theorem addResMax_accessors_consistent_witness :
    0 < (([MaxEvent.mk 1 4 [2, 3]].map MaxEvent.r).foldl max 0) ∧
    (GetRes_Max (runAddResMax (SetRes_Max monEx 0 0 0) 0
          [MaxEvent.mk 1 4 [2, 3]]) 0
        = ([MaxEvent.mk 1 4 [2, 3]].map MaxEvent.r).foldl max 0 ∧
      ∃ ev ∈ [MaxEvent.mk 1 4 [2, 3]],
        ev.r = ([MaxEvent.mk 1 4 [2, 3]].map MaxEvent.r).foldl max 0 ∧
        GetPoint_Max (runAddResMax (SetRes_Max monEx 0 0 0) 0
            [MaxEvent.mk 1 4 [2, 3]]) 0 = ev.p ∧
        GetPoint_Max_Coord (runAddResMax (SetRes_Max monEx 0 0 0) 0
            [MaxEvent.mk 1 4 [2, 3]]) 0 = ev.c) :=
  ⟨by decide,
    addResMax_accessors_consistent monEx 0 [MaxEvent.mk 1 4 [2, 3]]
      (by decide)⟩

/-- Modelled from the spec: the start of CEulerSolver::Preprocessing (header
line 3725, body in the missing solution_direct.cpp) — step 1 of the residual
pipeline — resets the RMS and Max residual accumulators of every solved
variable to zero before any flux or boundary loop adds into them. -/
def Preprocessing_ResetResiduals (nVar : Nat) (m : ConvMonitor) : ConvMonitor :=
  (List.range nVar).foldl (fun s w => SetRes_Max (SetRes_RMS s w 0) w 0 0) m

/-- The AddRes_RMS calls contributed by the flux and boundary loops of one
outer iteration, each tagged by the variable it targets. -/
def runAddResRMS (m : ConvMonitor) (events : List (Nat × su2double)) :
    ConvMonitor :=
  events.foldl (fun s ev => AddRes_RMS s ev.1 ev.2) m

/-- The AddRes_Max calls contributed by the flux and boundary loops of one
outer iteration, each tagged by the variable it targets. -/
def runAddResMaxEvents (m : ConvMonitor) (events : List (Nat × MaxEvent)) :
    ConvMonitor :=
  events.foldl (fun s ev => AddRes_Max s ev.1 ev.2.r ev.2.p ev.2.c) m

/-- Modelled from the spec: one outer iteration of the residual pipeline as
seen by the convergence monitor — the reset of step 1 (Preprocessing),
followed by the AddRes_RMS and AddRes_Max contributions of the interior flux
loops and boundary loops of steps 2 to 5. -/
def residualPipeline (nVar : Nat) (rmsEvents : List (Nat × su2double))
    (maxEvents : List (Nat × MaxEvent)) (m : ConvMonitor) : ConvMonitor :=
  runAddResMaxEvents
    (runAddResRMS (Preprocessing_ResetResiduals nVar m) rmsEvents) maxEvents

lemma resetFold_rms (m : ConvMonitor) (vs : List Nat) (v : Nat) :
    ((vs.foldl (fun s w => SetRes_Max (SetRes_RMS s w 0) w 0 0) m).Residual_RMS
        v)
      = if v ∈ vs then 0 else m.Residual_RMS v := by
  induction vs generalizing m with
  | nil => simp
  | cons w ws ih =>
      simp only [List.foldl_cons]
      rw [ih]
      by_cases hw : v ∈ ws
      · simp [hw]
      · by_cases hv : v = w
        · subst hv
          simp [hw, SetRes_Max, SetRes_RMS]
        · simp [hw, hv, SetRes_Max, SetRes_RMS, Function.update_noteq hv]

lemma resetFold_max (m : ConvMonitor) (vs : List Nat) (v : Nat) :
    ((vs.foldl (fun s w => SetRes_Max (SetRes_RMS s w 0) w 0 0) m).Residual_Max
        v)
      = if v ∈ vs then 0 else m.Residual_Max v := by
  induction vs generalizing m with
  | nil => simp
  | cons w ws ih =>
      simp only [List.foldl_cons]
      rw [ih]
      by_cases hw : v ∈ ws
      · simp [hw]
      · by_cases hv : v = w
        · subst hv
          simp [hw, SetRes_Max, SetRes_RMS]
        · simp [hw, hv, SetRes_Max, SetRes_RMS, Function.update_noteq hv]

lemma runAddResRMS_rms (m : ConvMonitor) (events : List (Nat × su2double))
    (v : Nat) :
    (runAddResRMS m events).Residual_RMS v
      = m.Residual_RMS v
          + ((events.filter (fun ev => ev.1 = v)).map Prod.snd).sum := by
  induction events generalizing m with
  | nil => simp [runAddResRMS]
  | cons ev es ih =>
      simp only [runAddResRMS, List.foldl_cons] at ih ⊢
      rw [ih]
      by_cases h : ev.1 = v
      · subst h
        simp [AddRes_RMS, List.filter_cons, add_assoc]
      · simp [AddRes_RMS, List.filter_cons, h, Function.update_noteq
          (fun hvv => h hvv.symm)]

lemma runAddResRMS_max (m : ConvMonitor) (events : List (Nat × su2double)) :
    (runAddResRMS m events).Residual_Max = m.Residual_Max := by
  induction events generalizing m with
  | nil => rfl
  | cons ev es ih =>
      simp only [runAddResRMS, List.foldl_cons] at ih ⊢
      rw [ih]
      rfl

lemma runAddResMaxEvents_rms (m : ConvMonitor)
    (events : List (Nat × MaxEvent)) :
    (runAddResMaxEvents m events).Residual_RMS = m.Residual_RMS := by
  induction events generalizing m with
  | nil => rfl
  | cons ev es ih =>
      simp only [runAddResMaxEvents, List.foldl_cons] at ih ⊢
      rw [ih]
      unfold AddRes_Max
      split <;> rfl

lemma runAddResMaxEvents_max (m : ConvMonitor)
    (events : List (Nat × MaxEvent)) (v : Nat) :
    (runAddResMaxEvents m events).Residual_Max v
      = ((events.filter (fun ev => ev.1 = v)).map (fun ev => ev.2.r)).foldl
          max (m.Residual_Max v) := by
  induction events generalizing m with
  | nil => simp [runAddResMaxEvents]
  | cons ev es ih =>
      simp only [runAddResMaxEvents, List.foldl_cons] at ih ⊢
      rw [ih]
      have hrm := AddRes_Max_rm m ev.1 ev.2.r ev.2.p ev.2.c v
      by_cases h : ev.1 = v
      · subst h
        rw [if_pos rfl] at hrm
        simp [List.filter_cons, hrm]
      · rw [if_neg (fun hvv => h hvv.symm)] at hrm
        simp [List.filter_cons, h, hrm]

/-- Claim C3: the RMS and Max accumulators are reset to zero at the very
start of each outer iteration of the residual pipeline (step 1,
Preprocessing), so after any outer iteration, for every solved variable v,
GetRes_RMS v and GetRes_Max v read exactly the accumulation contributed by
that iteration's flux and boundary loops — the result is a function of the
iteration's own events alone, for every prior monitor state m, so no
contribution of a prior iteration ever leaks in. -/
theorem rms_max_reset_isolation
    (nVar v : Nat) (hv : v < nVar)
    (rmsEvents : List (Nat × su2double)) (maxEvents : List (Nat × MaxEvent))
    (m : ConvMonitor) :
    GetRes_RMS (residualPipeline nVar rmsEvents maxEvents m) v
      = ((rmsEvents.filter (fun ev => ev.1 = v)).map Prod.snd).sum ∧
    GetRes_Max (residualPipeline nVar rmsEvents maxEvents m) v
      = ((maxEvents.filter (fun ev => ev.1 = v)).map (fun ev => ev.2.r)).foldl
          max 0 := by
  have hvmem : v ∈ List.range nVar := List.mem_range.mpr hv
  constructor
  · show (residualPipeline nVar rmsEvents maxEvents m).Residual_RMS v = _
    unfold residualPipeline
    rw [congrFun (runAddResMaxEvents_rms _ maxEvents) v,
      runAddResRMS_rms _ rmsEvents v]
    unfold Preprocessing_ResetResiduals
    rw [resetFold_rms m (List.range nVar) v, if_pos hvmem, zero_add]
  · show (residualPipeline nVar rmsEvents maxEvents m).Residual_Max v = _
    unfold residualPipeline
    rw [runAddResMaxEvents_max _ maxEvents v,
      congrFun (runAddResRMS_max _ rmsEvents) v]
    unfold Preprocessing_ResetResiduals
    rw [resetFold_max m (List.range nVar) v, if_pos hvmem]

/-- Witness for claim C3 at a concrete variable count, concrete event lists
and a concrete dirty prior monitor state. -/
theorem rms_max_reset_isolation_witness :
    0 < 2 ∧
    (GetRes_RMS (residualPipeline 2 [(0, 4), (1, 9), (0, 2)]
          [(0, MaxEvent.mk 3 5 [1])] monEx) 0
        = (([(0, (4 : su2double)), (1, 9), (0, 2)].filter
            (fun ev => ev.1 = 0)).map Prod.snd).sum ∧
      GetRes_Max (residualPipeline 2 [(0, 4), (1, 9), (0, 2)]
          [(0, MaxEvent.mk 3 5 [1])] monEx) 0
        = (([(0, MaxEvent.mk 3 5 [1])].filter (fun ev => ev.1 = 0)).map
            (fun ev => ev.2.r)).foldl max 0) :=
  ⟨by decide,
    rms_max_reset_isolation 2 0 (by decide) [(0, 4), (1, 9), (0, 2)]
      [(0, MaxEvent.mk 3 5 [1])] monEx⟩

/-- Modelled from the spec: the per-point flow state consumed by the
time-integration strategies — the solution vector of each point, the local
time step of each point and the accumulated residual of each point. -/
structure FlowField where
  Solution : Nat → Nat → su2double
  Delta_Time : Nat → su2double
  Res : Nat → Nat → su2double

/-- Modelled from the spec: CSolver/CEulerSolver::ExplicitRK_Iteration
(declared at header lines 1255 and 4366; body in the missing
solution_direct.cpp) performs, for the Runge-Kutta stage with coefficient
stageCoeff, the pointwise update
Solution += stageCoeff * LocalTimeStep * Residual, and assembles no linear
system and performs no linear solve. -/
def ExplicitRK_Iteration (stageCoeff : su2double) (f : FlowField) :
    FlowField :=
  { f with Solution := fun p v =>
      f.Solution p v + stageCoeff * f.Delta_Time p * f.Res p v }

/-- Modelled from the spec: ClassicalRK4_Iteration performs the same
pointwise explicit stage update with the stage coefficient of the classical
four-stage Runge-Kutta scheme. -/
def ClassicalRK4_Iteration (stageCoeff : su2double) (f : FlowField) :
    FlowField :=
  ExplicitRK_Iteration stageCoeff f

/-- Claim C4: the explicit Runge-Kutta update advances the state at every
point and RK stage by Solution += stageCoeff * LocalTimeStep * Residual
(leaving the time step and residual untouched), and performs no linear
solve — the updated solution of a point is a fixed function of the data of
that point alone, with no coupling across points. -/
theorem explicitRK_pointwise_update (stageCoeff : su2double) :
    (∀ (f : FlowField) (p v : Nat),
        (ExplicitRK_Iteration stageCoeff f).Solution p v
          = f.Solution p v + stageCoeff * f.Delta_Time p * f.Res p v ∧
        (ClassicalRK4_Iteration stageCoeff f).Solution p v
          = f.Solution p v + stageCoeff * f.Delta_Time p * f.Res p v ∧
        (ExplicitRK_Iteration stageCoeff f).Delta_Time = f.Delta_Time ∧
        (ExplicitRK_Iteration stageCoeff f).Res = f.Res) ∧
    (∃ stageUpdate : (Nat → su2double) → su2double → (Nat → su2double) →
        Nat → su2double,
      ∀ (f : FlowField) (p : Nat),
        (ExplicitRK_Iteration stageCoeff f).Solution p
          = stageUpdate (f.Solution p) (f.Delta_Time p) (f.Res p)) :=
  ⟨fun f p v => ⟨rfl, rfl, rfl, rfl⟩,
    ⟨fun sol dt res v => sol v + stageCoeff * dt * res v,
      fun f p => rfl⟩⟩

/-- The solver state visible to one boundary-condition operation of the flow
solver: the current solution (read only), the residual slots of the boundary
points and the per-marker diagnostic accumulators (both written). -/
@[ext]
structure BoundaryState where
  Solution : Nat → Nat → su2double
  Res : Nat → Nat → su2double
  MarkerDiag : Nat → su2double

/-- Modelled from the spec: the shape shared by the boundary operations of
section 4.2 — scoped to one marker, the operation iterates exactly the
vertices of that marker, re-derives the boundary flux of each vertex from
the current solution through the external numerics collaborator, writes it
into the residual slots of exactly those points, and recomputes the marker
diagnostic from the current solution; nothing is derived from a cached
delta and no hidden incremental state exists. -/
def markerBC (pts : List Nat) (numer : (Nat → su2double) → Nat → su2double)
    (diag : (Nat → su2double) → su2double) (mk : Nat) (s : BoundaryState) :
    BoundaryState :=
  { Solution := s.Solution,
    Res := fun p v => if p ∈ pts then numer (s.Solution p) v else s.Res p v,
    MarkerDiag := Function.update s.MarkerDiag mk
      ((pts.map (fun p => diag (s.Solution p))).sum) }

/-- Modelled from the spec: CEulerSolver::BC_Far_Field (declared at header
lines 3887 to 3888; body missing) — the characteristic-based far-field
operation; the characteristic flux of conv_numerics is the external numerics
collaborator, so it enters as a parameter. -/
def BC_Far_Field (pts : List Nat)
    (conv_numerics : (Nat → su2double) → Nat → su2double)
    (diag : (Nat → su2double) → su2double) (mk : Nat) (s : BoundaryState) :
    BoundaryState :=
  markerBC pts conv_numerics diag mk s

/-- Modelled from the spec: CEulerSolver::BC_Euler_Wall (declared at header
lines 3875 to 3876; body missing) — the flux-based no-penetration wall
operation; the wall flux is the external numerics collaborator, so it
enters as a parameter. -/
def BC_Euler_Wall (pts : List Nat)
    (numerics : (Nat → su2double) → Nat → su2double)
    (diag : (Nat → su2double) → su2double) (mk : Nat) (s : BoundaryState) :
    BoundaryState :=
  markerBC pts numerics diag mk s

lemma markerBC_idem (pts : List Nat)
    (numer : (Nat → su2double) → Nat → su2double)
    (diag : (Nat → su2double) → su2double) (mk : Nat) (s : BoundaryState) :
    markerBC pts numer diag mk (markerBC pts numer diag mk s)
      = markerBC pts numer diag mk s := by
  ext p v
  · rfl
  · by_cases h : p ∈ pts <;> simp [markerBC, h]
  · simp [markerBC, Function.update_idem]

/-- Claim C2: every marker-scoped boundary operation — in particular
BC_Far_Field and BC_Euler_Wall — invoked twice in immediate succession with
the solution unchanged in between produces identical residual values and
identical marker diagnostic values both times: the second invocation leaves
the state of the first invocation exactly as it is, because the operation
re-derives the boundary state from the current solution and keeps no hidden
incremental state. -/
theorem boundary_dispatch_idempotent (pts : List Nat)
    (numer : (Nat → su2double) → Nat → su2double)
    (diag : (Nat → su2double) → su2double) (mk : Nat) (s : BoundaryState) :
    markerBC pts numer diag mk (markerBC pts numer diag mk s)
      = markerBC pts numer diag mk s ∧
    BC_Far_Field pts numer diag mk (BC_Far_Field pts numer diag mk s)
      = BC_Far_Field pts numer diag mk s ∧
    BC_Euler_Wall pts numer diag mk (BC_Euler_Wall pts numer diag mk s)
      = BC_Euler_Wall pts numer diag mk s :=
  ⟨markerBC_idem pts numer diag mk s, markerBC_idem pts numer diag mk s,
    markerBC_idem pts numer diag mk s⟩

/-- The full per-instance state an unsupported boundary call could touch:
solution, residual, Jacobian and diagnostic accumulators. -/
structure KernelState where
  Solution : Nat → Nat → su2double
  Res : Nat → Nat → su2double
  Jacobian : Nat → Nat → su2double
  MarkerDiag : Nat → su2double

/-- Modelled from the spec: the base-class CSolver boundary operations (for
example BC_Isothermal_Wall, declared at header lines 761 to 766, and
BC_Far_Field, declared at lines 812 to 813; bodies in the missing
solver_structure.cpp) default to an empty body — the call changes nothing
and raises no error.  An invocation is modelled as returning Except so that
an erroring variant would be expressible; the default always returns the
unchanged state. -/
def CSolver_BC_default (mk : Nat) (s : KernelState) :
    Except Unit KernelState :=
  Except.ok s

/-- Modelled from the spec: virtual dispatch of one boundary operation — a
concrete solver either overrides it, or the invocation lands on the
base-class default body. -/
def dispatchBC
    (overrideBC : Option (Nat → KernelState → Except Unit KernelState))
    (mk : Nat) (s : KernelState) : Except Unit KernelState :=
  match overrideBC with
  | some f => f mk s
  | none => CSolver_BC_default mk s

/-- Claim C5: invoking a boundary-condition operation that a concrete solver
has not overridden dispatches to the base-class default, which is a no-op —
the returned state has the residual, Jacobian, solution and diagnostic state
unchanged, and no error is raised. -/
theorem unoverridden_bc_noop (mk : Nat) (s : KernelState) :
    dispatchBC none mk s = Except.ok s ∧
    CSolver_BC_default mk s = Except.ok s ∧
    ∃ t, dispatchBC none mk s = Except.ok t ∧ t.Solution = s.Solution ∧
      t.Res = s.Res ∧ t.Jacobian = s.Jacobian ∧
      t.MarkerDiag = s.MarkerDiag :=
  ⟨rfl, rfl, ⟨s, rfl, rfl, rfl, rfl, rfl⟩⟩

/-- Modelled from the spec: the implicit-iteration state — the solution
field and the recorded linear-solver iteration count (the CSolver field
IterLinSolver). -/
structure ImplicitState where
  IterLinSolver : Nat
  Solution : Nat → Nat → su2double

/-- Modelled from the spec: CSolver::SetIterLinSolver (declared at header
line 149; inline body missing) records the iteration count reported by the
linear solve. -/
def SetIterLinSolver (s : ImplicitState) (n : Nat) : ImplicitState :=
  { s with IterLinSolver := n }

/-- Modelled from the spec: CSolver::GetIterLinSolver (declared at header
line 240; inline body missing) returns the recorded iteration count to the
caller. -/
def GetIterLinSolver (s : ImplicitState) : Nat := s.IterLinSolver

/-- The report of the external linear-solver collaborator: the iteration
count it used (whether or not it converged) and the solution update it
produced. -/
structure LinSolveReport where
  iters : Nat
  delta : Nat → Nat → su2double

/-- Modelled from the spec: CEulerSolver::ImplicitEuler_Iteration (declared
at header line 4410; body missing) assembles the linear system, calls the
external linear solver, applies the returned update to the solution and
records the returned iteration count via SetIterLinSolver; whether or not
the solve converged, the call returns normally — no abort path exists in
the solver, the decision is left to the caller. -/
def ImplicitEuler_Iteration (linSolve : ImplicitState → LinSolveReport)
    (s : ImplicitState) : Except Unit ImplicitState :=
  let rep := linSolve s
  Except.ok (SetIterLinSolver
    { s with Solution := fun p v => s.Solution p v + rep.delta p v }
    rep.iters)

/-- Claim C7: a non-converged linear solve inside ImplicitEuler_Iteration
does not abort the run — the call always returns normally, the iteration
count reported by the linear solver is recorded via SetIterLinSolver, and
GetIterLinSolver returns exactly every recorded count to the caller. -/
theorem linear_solve_count_recorded
    (linSolve : ImplicitState → LinSolveReport) (s : ImplicitState) :
    (∃ t, ImplicitEuler_Iteration linSolve s = Except.ok t ∧
      GetIterLinSolver t = (linSolve s).iters) ∧
    (∀ (u : ImplicitState) (n : Nat),
      GetIterLinSolver (SetIterLinSolver u n) = n) :=
  ⟨⟨_, rfl, rfl⟩, fun u n => rfl⟩

/-- One reconstructed primitive-variable record of one point: the density
and the pressure derived from the conserved state. -/
structure PrimRecord where
  density : su2double
  pressure : su2double
deriving DecidableEq

/-- Modelled from the spec: inside CEulerSolver::Preprocessing (declared at
header line 3725; body missing), a primitive reconstruction with negative
density or pressure is non-physical — the offending value is clamped to the
configured floor, and the point is flagged for the aggregate counter. -/
def clampPrimitive (floorD floorP : su2double) (r : PrimRecord) :
    PrimRecord × Bool :=
  (⟨if r.density < 0 then floorD else r.density,
    if r.pressure < 0 then floorP else r.pressure⟩,
   if r.density < 0 ∨ r.pressure < 0 then true else false)

/-- Modelled from the spec: the primitive-recomputation pass of
Preprocessing over all points — clamp every non-physical record and return
the clamped records together with the aggregate count of clamped points; the
pass is modelled with an Except result so that a throwing variant would be
expressible, and it never takes the error case. -/
def preprocessPrimitives (floorD floorP : su2double)
    (recs : List PrimRecord) : Except Unit (List PrimRecord × Nat) :=
  Except.ok
    (recs.map (fun r => (clampPrimitive floorD floorP r).1),
     (recs.filter (fun r => (clampPrimitive floorD floorP r).2)).length)

/-- Claim C6: when primitive reconstruction produces a non-physical state
(negative density or pressure), the value is clamped to the floor and the
point enters the aggregate counter; a physical value passes through
unchanged, the result after clamping is always physical when the floors
are, and the pass always returns normally — it never raises, terminates the
solver or unwinds. -/
theorem nonphysical_state_clamped_counted (floorD floorP : su2double)
    (recs : List PrimRecord) (hD : 0 ≤ floorD) (hP : 0 ≤ floorP) :
    ∃ out, preprocessPrimitives floorD floorP recs = Except.ok out ∧
      out.2 = recs.countP
          (fun r => if r.density < 0 ∨ r.pressure < 0 then true else false) ∧
      (∀ r ∈ recs, r.density < 0 →
          (clampPrimitive floorD floorP r).1.density = floorD) ∧
      (∀ r ∈ recs, r.pressure < 0 →
          (clampPrimitive floorD floorP r).1.pressure = floorP) ∧
      (∀ r ∈ recs, 0 ≤ r.density →
          (clampPrimitive floorD floorP r).1.density = r.density) ∧
      (∀ r2 ∈ out.1, 0 ≤ r2.density ∧ 0 ≤ r2.pressure) := by
  refine ⟨_, rfl, ?_, ?_, ?_, ?_, ?_⟩
  · rw [List.countP_eq_length_filter]
    rfl
  · intro r _ h
    simp [clampPrimitive, h]
  · intro r _ h
    simp [clampPrimitive, h]
  · intro r _ h
    simp [clampPrimitive, not_lt.mpr h]
  · intro r2 hr2
    obtain ⟨r, _, rfl⟩ := List.mem_map.mp hr2
    constructor
    · by_cases h : r.density < 0
      · simpa [clampPrimitive, h] using hD
      · simpa [clampPrimitive, h] using not_lt.mp h
    · by_cases h : r.pressure < 0
      · simpa [clampPrimitive, h] using hP
      · simpa [clampPrimitive, h] using not_lt.mp h

/-- Witness for claim C6 on a concrete record list with one non-physical
point. -/
theorem nonphysical_state_clamped_counted_witness :
    (0 : su2double) ≤ 1 ∧ (0 : su2double) ≤ 2 ∧
    ∃ out, preprocessPrimitives 1 2
          [PrimRecord.mk (-3) 5, PrimRecord.mk 4 6] = Except.ok out ∧
      out.2 = [PrimRecord.mk (-3) 5, PrimRecord.mk 4 6].countP
          (fun r => if r.density < 0 ∨ r.pressure < 0 then true else false) ∧
      (∀ r ∈ [PrimRecord.mk (-3) 5, PrimRecord.mk 4 6], r.density < 0 →
          (clampPrimitive 1 2 r).1.density = 1) ∧
      (∀ r ∈ [PrimRecord.mk (-3) 5, PrimRecord.mk 4 6], r.pressure < 0 →
          (clampPrimitive 1 2 r).1.pressure = 2) ∧
      (∀ r ∈ [PrimRecord.mk (-3) 5, PrimRecord.mk 4 6], 0 ≤ r.density →
          (clampPrimitive 1 2 r).1.density = r.density) ∧
      (∀ r2 ∈ out.1, 0 ≤ r2.density ∧ 0 ≤ r2.pressure) :=
  ⟨by norm_num, by norm_num,
    nonphysical_state_clamped_counted 1 2
      [PrimRecord.mk (-3) 5, PrimRecord.mk 4 6] (by norm_num) (by norm_num)⟩

/-- The data of one boundary marker entering Pressure_Forces: whether the
marker is flagged monitored, and the contribution of each boundary face of
the marker to the inviscid lift coefficient. -/
structure MarkerData where
  monitored : Bool
  faceContrib : List su2double

/-- The inviscid force-coefficient state written by Pressure_Forces: the
per-marker lift coefficients and the all-marker aggregate. -/
structure InvForceCoeffs where
  CL_Inv : Nat → su2double
  AllBound_CL_Inv : su2double

/-- The marker record at a marker index (a missing index reads as an
unmonitored marker with no faces). -/
def mkData (ms : List MarkerData) (mk : Nat) : MarkerData :=
  ms.getD mk ⟨false, []⟩

/-- One marker step of the Pressure_Forces pass: accumulate the face
contributions of marker mk into its CL_Inv slot, and add that marker
coefficient into AllBound_CL_Inv exactly when the marker is monitored. -/
def pfStep (ms : List MarkerData) (acc : InvForceCoeffs) (mk : Nat) :
    InvForceCoeffs :=
  { CL_Inv := Function.update acc.CL_Inv mk
      ((mkData ms mk).faceContrib).sum,
    AllBound_CL_Inv := acc.AllBound_CL_Inv
      + if (mkData ms mk).monitored
          then ((mkData ms mk).faceContrib).sum else 0 }

/-- Modelled from the spec: CEulerSolver::Pressure_Forces (declared at
header line 4417; body missing) zeroes the per-marker coefficients and the
all-marker aggregate, then in a single pass over the markers accumulates the
face contributions of each marker into that marker slot and sums the slots
of exactly the markers flagged monitored into AllBound_CL_Inv. -/
def Pressure_Forces (ms : List MarkerData) : InvForceCoeffs :=
  (List.range ms.length).foldl (pfStep ms) ⟨fun _ => 0, 0⟩

/-- Modelled from the spec: CEulerSolver::GetCL_Inv (declared at header line
4447; inline body missing) reads the per-marker inviscid lift coefficient. -/
def GetCL_Inv (c : InvForceCoeffs) (mk : Nat) : su2double := c.CL_Inv mk

/-- Modelled from the spec: CEulerSolver::GetAllBound_CL_Inv (declared at
header line 4914; inline body missing) reads the all-marker aggregate of the
inviscid lift coefficient. -/
def GetAllBound_CL_Inv (c : InvForceCoeffs) : su2double := c.AllBound_CL_Inv

lemma pfFold_cl (ms : List MarkerData) (vs : List Nat) (acc : InvForceCoeffs)
    (mk : Nat) :
    (vs.foldl (pfStep ms) acc).CL_Inv mk
      = if mk ∈ vs then ((mkData ms mk).faceContrib).sum
        else acc.CL_Inv mk := by
  induction vs generalizing acc with
  | nil => simp
  | cons w ws ih =>
      rw [List.foldl_cons, ih]
      by_cases hw : mk ∈ ws
      · simp [hw]
      · by_cases hv : mk = w
        · subst hv
          simp [hw, pfStep]
        · simp [hw, hv, pfStep, Function.update_noteq hv]

lemma pfFold_allbound (ms : List MarkerData) (vs : List Nat)
    (acc : InvForceCoeffs) :
    (vs.foldl (pfStep ms) acc).AllBound_CL_Inv
      = acc.AllBound_CL_Inv
        + ((vs.filter (fun mk => (mkData ms mk).monitored)).map
            (fun mk => ((mkData ms mk).faceContrib).sum)).sum := by
  induction vs generalizing acc with
  | nil => simp
  | cons w ws ih =>
      rw [List.foldl_cons, ih]
      cases h : (mkData ms w).monitored <;>
        simp [pfStep, List.filter_cons, h, add_assoc]

lemma sum_map_filter_eq (l : List Nat) (p : Nat → Bool)
    (f : Nat → su2double) :
    ((l.filter p).map f).sum
      = (l.map (fun a => if p a then f a else 0)).sum := by
  induction l with
  | nil => rfl
  | cons a t ih => cases h : p a <;> simp [List.filter_cons, h, ih]

/-- Claim C8: after Pressure_Forces completes, GetAllBound_CL_Inv equals the
sum of GetCL_Inv over exactly the markers flagged monitored, and every
marker not flagged monitored contributes zero to that sum. -/
theorem allbound_cl_inv_sums_monitored (ms : List MarkerData) :
    GetAllBound_CL_Inv (Pressure_Forces ms)
      = (((List.range ms.length).filter
            (fun mk => (mkData ms mk).monitored)).map
          (fun mk => GetCL_Inv (Pressure_Forces ms) mk)).sum ∧
    GetAllBound_CL_Inv (Pressure_Forces ms)
      = ((List.range ms.length).map
          (fun mk => if (mkData ms mk).monitored
            then GetCL_Inv (Pressure_Forces ms) mk else 0)).sum := by
  have hcl : ∀ mk ∈ List.range ms.length,
      GetCL_Inv (Pressure_Forces ms) mk
        = ((mkData ms mk).faceContrib).sum := by
    intro mk hmk
    show (Pressure_Forces ms).CL_Inv mk = _
    unfold Pressure_Forces
    rw [pfFold_cl, if_pos hmk]
  have hab : GetAllBound_CL_Inv (Pressure_Forces ms)
      = (((List.range ms.length).filter
            (fun mk => (mkData ms mk).monitored)).map
          (fun mk => ((mkData ms mk).faceContrib).sum)).sum := by
    show (Pressure_Forces ms).AllBound_CL_Inv = _
    unfold Pressure_Forces
    rw [pfFold_allbound]
    simp
  constructor
  · rw [hab]
    refine congrArg List.sum (List.map_congr_left ?_).symm
    intro mk hmk
    exact hcl mk (List.mem_of_mem_filter hmk)
  · rw [hab, sum_map_filter_eq]
    refine congrArg List.sum (List.map_congr_left ?_).symm
    intro mk hmk
    cases h : (mkData ms mk).monitored <;>
      simp [h, hcl mk hmk]

/-- Modelled from the spec: the clip of one raw reconstruction-slope ratio
into the unit interval — the limiter value of one point and one variable. -/
def limitValue (raw : su2double) : su2double := min 1 (max 0 raw)

/-- The per-point, per-variable limiter storage of one solver instance. -/
structure LimiterField where
  Limiter : Nat → Nat → su2double

/-- Modelled from the spec: CSolver::SetSolution_Limiter (declared at header
line 441; body missing) recomputes the per-point, per-variable slope
limiter from the raw gradient ratios, clipping every value into [0, 1] so
reconstructed gradients cannot overshoot at discontinuities. -/
def SetSolution_Limiter (raw : Nat → Nat → su2double) (fld : LimiterField) :
    LimiterField :=
  { Limiter := fun p v => limitValue (raw p v) }

/-- Modelled from the spec: CSolver::SetPrimitive_Limiter (declared at
header line 448; body missing) — the primitive-variable counterpart, the
same per-value clip into [0, 1]. -/
def SetPrimitive_Limiter (raw : Nat → Nat → su2double)
    (fld : LimiterField) : LimiterField :=
  { Limiter := fun p v => limitValue (raw p v) }

/-- Modelled from the spec: a MUSCL reconstruction read — the face value is
reconstructed from the solution, the gradient and the limiter; reading the
limiter mutates nothing, so the returned pair carries the unchanged limiter
field. -/
def reconstructFace (fld : LimiterField) (sol grad : Nat → Nat → su2double)
    (p v : Nat) : su2double × LimiterField :=
  (sol p v + fld.Limiter p v * grad p v, fld)

/-- Claim C9: after SetSolution_Limiter (or the primitive-variable
counterpart SetPrimitive_Limiter) runs, every per-point, per-variable
limiter value lies in the closed interval [0, 1], and since a
reconstruction read returns the limiter field unchanged, the bound holds at
every point for every subsequent operation that reads the limiter. -/
theorem limiter_in_unit_interval (raw : Nat → Nat → su2double)
    (fld : LimiterField) (p v : Nat) :
    (0 ≤ (SetSolution_Limiter raw fld).Limiter p v ∧
      (SetSolution_Limiter raw fld).Limiter p v ≤ 1) ∧
    (0 ≤ (SetPrimitive_Limiter raw fld).Limiter p v ∧
      (SetPrimitive_Limiter raw fld).Limiter p v ≤ 1) ∧
    ∀ (sol grad : Nat → Nat → su2double) (q w : Nat),
      (reconstructFace (SetSolution_Limiter raw fld) sol grad q w).2
        = SetSolution_Limiter raw fld :=
  ⟨⟨le_min zero_le_one (le_max_left 0 (raw p v)),
      min_le_left 1 (max 0 (raw p v))⟩,
    ⟨le_min zero_le_one (le_max_left 0 (raw p v)),
      min_le_left 1 (max 0 (raw p v))⟩,
    fun sol grad q w => rfl⟩

end SU2
